import Mathlib

/-!
Verification of the rig-repl RAG middleware, REPL loop, and ingestion pipeline.

Shallow embedding of:
  * src/rag_middleware.rs — `query_rag` (threshold filter, budget loop, context
    assembly, empty-result passthrough, history clearing);
  * src/rig_agent.rs — the `start_repl` loop body (quit handling, read-error
    handling, propagation of `query_rag` failures via `?`);
  * src/rag_builder.rs — `ingest_docs` / `ingest_md_file` /
    `ingest_solidity_file` (extension routing, per-file read failures, chunk
    source names via `format!("{:?}", file.file_name())`).

Scores returned by the vector search are modelled as exact rationals (ℚ): the
only score comparison in the source is `score > 0.9`, and the constants 0.9
and 0.899 of interest are compared exactly, so the f64 rounding of the source
is irrelevant to the comparisons proved here.  Rust `String::len` is the
UTF-8 byte length, modelled by `String.utf8ByteSize`.
-/

namespace RigRepl

/-- Model of `UniswapChunk` (src/rag_builder.rs): a file name together with one
content chunk. -/
structure UniswapChunk where
  file_name : String
  content : String
deriving Repr, DecidableEq

/-- Model of `UniswapChunk::new`: records the given name with empty content. -/
def UniswapChunk.new (file_name : String) : UniswapChunk :=
  { file_name := file_name, content := "" }

/-- `const SEPARATOR: &str = "\n\n---\n\n"` (src/rag_middleware.rs). -/
def SEPARATOR : String := "\n\n---\n\n"

/-- `const DISTANCE: f64 = 0.9` (src/rag_middleware.rs); the loop body compares
`score > 0.9`, the same value. -/
def DISTANCE : ℚ := 9 / 10

/-- `const MAX_CHAR_LEN: usize = 30000` (src/rag_middleware.rs). -/
def MAX_CHAR_LEN : ℕ := 30000

/-- Rust `String::len`: the UTF-8 byte length of the string. -/
def rustLen (s : String) : ℕ := s.utf8ByteSize

/-- One formatted context entry:
`format!("Source: {}\nContent: {}", name, chunk.content)`. -/
def contextEntry (name : String) (chunk : UniswapChunk) : String :=
  "Source: " ++ name ++ "\nContent: " ++ chunk.content

/-- The context-assembly loop of `query_rag` (src/rag_middleware.rs lines
26–37): walk the ranked results; `continue` past a result whose score exceeds
0.9; `continue` past a chunk that would push `ctx_size` over `MAX_CHAR_LEN`;
otherwise add its length to `ctx_size` and push its formatted entry.  Returns
the final `(ctx_size, context)`. -/
def assembleLoop : List (ℚ × String × UniswapChunk) → ℕ → List String →
    ℕ × List String
  | [], ctx_size, context => (ctx_size, context)
  | (score, name, chunk) :: rest, ctx_size, context =>
    if score > DISTANCE then
      assembleLoop rest ctx_size context
    else if rustLen chunk.content + ctx_size > MAX_CHAR_LEN then
      assembleLoop rest ctx_size context
    else
      assembleLoop rest (ctx_size + rustLen chunk.content)
        (context ++ [contextEntry name chunk])

/-- State of `RigAgent` as used by `query_rag` (src/rag_middleware.rs): the
completion agent and the vector index are opaque; the conversation history is
a list of messages.  `Agent`, `Index` and `Msg` are type parameters because
`query_rag` never inspects them. -/
structure RigAgent (Agent Index Msg : Type) where
  agent : Agent
  index : Index
  history : List Msg
deriving Repr, DecidableEq

/-- Model of `query_rag` (src/rag_middleware.rs) after the vector search has
produced `search_results` (the outcome of `self.index.top_n(req).await?`).
Returns the updated agent state and the string handed to the completion
agent.  Mirrors the source: empty results return the query unchanged and touch
nothing; otherwise the history is cleared, the loop assembles the context, the
entries are joined with `SEPARATOR`, and the preamble/query wrapper is
returned. -/
def query_rag {Agent Index Msg : Type} (st : RigAgent Agent Index Msg)
    (query : String) (search_results : List (ℚ × String × UniswapChunk)) :
    RigAgent Agent Index Msg × String :=
  if search_results.isEmpty then
    (st, query)
  else
    let st' := { st with history := [] }
    let res := assembleLoop search_results 0 []
    let context := String.intercalate SEPARATOR res.2
    (st', "You have access to the following relevant documentation: \n\n" ++
      context ++ "\n\n --- \n\nUser: " ++ query)

/-- Model of the fallible entry to `query_rag`: the vector search itself
(`self.index.top_n(req).await?`) may fail, and its error propagates via `?`
out of `query_rag`. -/
def query_rag_run {Agent Index Msg : Type} (st : RigAgent Agent Index Msg)
    (query : String)
    (search : Except String (List (ℚ × String × UniswapChunk))) :
    Except String (RigAgent Agent Index Msg × String) :=
  match search with
  | Except.error e => Except.error e
  | Except.ok rs => Except.ok (query_rag st query rs)

/-- Model of Rust `str::trim`: removes whitespace from both ends of the
string.  (Rust trims by the Unicode `White_Space` property; the model uses
`Char.isWhitespace`, which agrees on the ASCII whitespace relevant to the
`quit` comparison.) -/
def rustTrim (s : String) : String :=
  String.mk
    (((s.data.dropWhile Char.isWhitespace).reverse.dropWhile
      Char.isWhitespace).reverse)

/-- Outcome of `rl.readline(">>> ")` in `start_repl` (src/rig_agent.rs): a
line of input, or a read error (end of input, interrupt, ...). -/
inductive ReadResult where
  | line (s : String)
  | err (e : String)
deriving Repr, DecidableEq

/-- Control-flow outcome of one iteration of the `start_repl` loop:
`terminated` models `break` (the loop exits and `start_repl` returns `Ok`);
`aborted e` models the `?` on `query_rag` propagating an error out of
`start_repl`; `continued sent` models falling through to the next iteration,
where `sent` is the prompt passed to `self.agent.prompt` this turn (`none`
when no prompt was issued). -/
inductive ReplOutcome where
  | terminated
  | aborted (e : String)
  | continued (sent : Option String)
deriving Repr, DecidableEq

/-- One iteration of the `start_repl` loop body (src/rig_agent.rs lines
104–136).  On a read error the loop prints the error and continues.  On a
line, `quit` (after `trim`) breaks; otherwise `query_rag` runs — its error
aborts `start_repl` via `?` — and the augmented query is sent to the agent.
Both arms of the inner `match` on the prompt result (display response /
display error) continue the loop, so the prompt result does not affect
control flow. -/
def replStep {Agent Index Msg : Type} (st : RigAgent Agent Index Msg)
    (input : ReadResult)
    (search : Except String (List (ℚ × String × UniswapChunk))) :
    RigAgent Agent Index Msg × ReplOutcome :=
  match input with
  | ReadResult.err _ => (st, ReplOutcome.continued none)
  | ReadResult.line l =>
    if rustTrim l = "quit" then
      (st, ReplOutcome.terminated)
    else
      match query_rag_run st l search with
      | Except.error e => (st, ReplOutcome.aborted e)
      | Except.ok (st', q) => (st', ReplOutcome.continued (some q))

/-- `const MD_EXTENSION: &str = "md"` (src/rag_builder.rs). -/
def MD_EXTENSION : String := "md"

/-- `const SOL_EXTENSION: &str = "sol"` (src/rag_builder.rs). -/
def SOL_EXTENSION : String := "sol"

/-- One character of Rust's `Debug` escaping for strings: quotes, backslashes
and the common control characters are backslash-escaped, every other
character is kept.  (Rust additionally escapes rarer control and
grapheme-extended characters; the file names considered here contain none.) -/
def escapeDebugChar (c : Char) : String :=
  if c = '"' then "\\\""
  else if c = '\\' then "\\\\"
  else if c = '\n' then "\\n"
  else if c = '\t' then "\\t"
  else if c = '\r' then "\\r"
  else String.singleton c

/-- Model of `format!("{:?}", file.file_name())` (src/rag_builder.rs line
101) for a valid-UTF-8 file name: the `Debug` formatting of an `OsStr`
renders it as the escaped name surrounded by literal quote characters. -/
def debugFormat (s : String) : String :=
  "\"" ++ String.join (s.data.map escapeDebugChar) ++ "\""

/-- Model of Rust `Path::extension().and_then(|ext| ext.to_str())` on a file's
base name: the portion after the last `.` of the name, or `none` when the
name has no `.` or consists of a single leading `.` (hidden files). -/
def pathExtension (name : String) : Option String :=
  let rev := name.data.reverse
  let extRev := rev.takeWhile (fun c => c ≠ '.')
  match rev.drop extRev.length with
  | [] => none
  | [_] => none
  | _ => some (String.mk extRev.reverse)

/-- One file met by the `WalkDir` traversal in `ingest_docs`: its base name
and the outcome of `fs::read_to_string` on it (reading happens only for
`.md` / `.sol` files, so the outcome is a parameter consulted only then). -/
structure FileEntry where
  file_name : String
  read : Except String String
deriving Repr

/-- Chunk construction shared by `ingest_md_file` and `ingest_solidity_file`:
`UniswapChunk::new(&name)` followed by `doc.content = String::from(chunk)`. -/
def chunkOf (name chunk : String) : UniswapChunk :=
  { UniswapChunk.new name with content := chunk }

/-- Processing of one file in the `ingest_docs` loop (src/rag_builder.rs lines
100–117), parameterised by the external `text_splitter` chunkers `mdChunks`
(`MarkdownSplitter`, used by `ingest_md_file`) and `solChunks`
(`CodeSplitter`, used by `ingest_solidity_file`).  The name recorded on every
chunk is `format!("{:?}", file.file_name())`.  A `.md` or `.sol` file is
read; a read failure propagates via `?`.  Any other extension falls to the
catch-all arm and contributes nothing.  Returns the updated `self.docs`. -/
def ingestFile (mdChunks solChunks : String → List String)
    (docs : List UniswapChunk) (f : FileEntry) :
    Except String (List UniswapChunk) :=
  let name := debugFormat f.file_name
  match pathExtension f.file_name with
  | some e =>
    if e = MD_EXTENSION then
      match f.read with
      | Except.error err => Except.error err
      | Except.ok s => Except.ok (docs ++ (mdChunks s).map (chunkOf name))
    else if e = SOL_EXTENSION then
      match f.read with
      | Except.error err => Except.error err
      | Except.ok s => Except.ok (docs ++ (solChunks s).map (chunkOf name))
    else
      Except.ok docs
  | none => Except.ok docs

/-- Model of `ingest_docs` (src/rag_builder.rs) over the flattened list of
files produced by walking the configured directories: each file is processed
in turn, and any per-file error propagates immediately via `?`, abandoning
the remaining files. -/
def ingest_docs (mdChunks solChunks : String → List String) :
    List FileEntry → List UniswapChunk → Except String (List UniswapChunk)
  | [], docs => Except.ok docs
  | f :: rest, docs =>
    match ingestFile mdChunks solChunks docs f with
    | Except.error e => Except.error e
    | Except.ok docs' => ingest_docs mdChunks solChunks rest docs'

/-- ASCII test string of `n` repetitions of the letter a; its UTF-8 byte
length is `n`. -/
def repA (n : ℕ) : String := String.mk (List.replicate n 'a')

/-! Helper lemmas: unfolding equations for `assembleLoop` and byte lengths of
the `repA` test strings. -/

lemma assembleLoop_nil (ctx : ℕ) (context : List String) :
    assembleLoop [] ctx context = (ctx, context) := rfl

lemma assembleLoop_skip_score {score : ℚ} {name : String} {chunk : UniswapChunk}
    {rest : List (ℚ × String × UniswapChunk)} {ctx : ℕ} {context : List String}
    (h : score > DISTANCE) :
    assembleLoop ((score, name, chunk) :: rest) ctx context =
      assembleLoop rest ctx context := by
  conv_lhs => unfold assembleLoop
  rw [if_pos h]

lemma assembleLoop_skip_len {score : ℚ} {name : String} {chunk : UniswapChunk}
    {rest : List (ℚ × String × UniswapChunk)} {ctx : ℕ} {context : List String}
    (h : ¬ score > DISTANCE) (h2 : rustLen chunk.content + ctx > MAX_CHAR_LEN) :
    assembleLoop ((score, name, chunk) :: rest) ctx context =
      assembleLoop rest ctx context := by
  conv_lhs => unfold assembleLoop
  rw [if_neg h, if_pos h2]

lemma assembleLoop_push {score : ℚ} {name : String} {chunk : UniswapChunk}
    {rest : List (ℚ × String × UniswapChunk)} {ctx : ℕ} {context : List String}
    (h : ¬ score > DISTANCE) (h2 : ¬ rustLen chunk.content + ctx > MAX_CHAR_LEN) :
    assembleLoop ((score, name, chunk) :: rest) ctx context =
      assembleLoop rest (ctx + rustLen chunk.content)
        (context ++ [contextEntry name chunk]) := by
  conv_lhs => unfold assembleLoop
  rw [if_neg h, if_neg h2]

lemma utf8_go_repA (n : ℕ) :
    String.utf8ByteSize.go (List.replicate n 'a') = n := by
  induction n with
  | zero => rfl
  | succ n ih =>
    rw [List.replicate_succ]
    show String.utf8ByteSize.go (List.replicate n 'a') + Char.utf8Size 'a' = n + 1
    rw [ih]
    rfl

lemma rustLen_repA (n : ℕ) : rustLen (repA n) = n := utf8_go_repA n

lemma not_gt_distance_zero : ¬ ((0 : ℚ) > DISTANCE) := by
  unfold DISTANCE
  norm_num

lemma not_gt_distance_self : ¬ (DISTANCE > DISTANCE) := lt_irrefl DISTANCE

lemma not_gt_distance_899 : ¬ ((899 : ℚ) / 1000 > DISTANCE) := by
  unfold DISTANCE
  norm_num

lemma one_gt_distance : (1 : ℚ) > DISTANCE := by
  unfold DISTANCE
  norm_num

/-- The accumulated context size never exceeds the budget: if `ctx` is within
`MAX_CHAR_LEN` when the loop starts, it still is when the loop ends. -/
lemma assembleLoop_ctx_le (results : List (ℚ × String × UniswapChunk)) :
    ∀ (ctx : ℕ) (context : List String), ctx ≤ MAX_CHAR_LEN →
      (assembleLoop results ctx context).1 ≤ MAX_CHAR_LEN := by
  induction results with
  | nil =>
    intro ctx context h
    simpa [assembleLoop_nil] using h
  | cons hd rest ih =>
    intro ctx context h
    obtain ⟨score, name, chunk⟩ := hd
    by_cases h1 : score > DISTANCE
    · rw [assembleLoop_skip_score h1]
      exact ih ctx context h
    · by_cases h2 : rustLen chunk.content + ctx > MAX_CHAR_LEN
      · rw [assembleLoop_skip_len h1 h2]
        exact ih ctx context h
      · rw [assembleLoop_push h1 h2]
        exact ih _ _ (by omega)

/-- The entries appended by the loop form a sublist (order preserved, possibly
with omissions) of the formatted entries of the ranked input. -/
lemma assembleLoop_context_sublist (results : List (ℚ × String × UniswapChunk)) :
    ∀ (ctx : ℕ) (context : List String),
      ∃ t, (assembleLoop results ctx context).2 = context ++ t ∧
        List.Sublist t (results.map fun r => contextEntry r.2.1 r.2.2) := by
  induction results with
  | nil =>
    intro ctx context
    exact ⟨[], by simp [assembleLoop_nil], List.nil_sublist _⟩
  | cons hd rest ih =>
    intro ctx context
    obtain ⟨score, name, chunk⟩ := hd
    by_cases h1 : score > DISTANCE
    · obtain ⟨t, ht, hs⟩ := ih ctx context
      exact ⟨t, by rw [assembleLoop_skip_score h1, ht], by simpa using hs.cons _⟩
    · by_cases h2 : rustLen chunk.content + ctx > MAX_CHAR_LEN
      · obtain ⟨t, ht, hs⟩ := ih ctx context
        exact ⟨t, by rw [assembleLoop_skip_len h1 h2, ht], by simpa using hs.cons _⟩
      · obtain ⟨t, ht, hs⟩ := ih (ctx + rustLen chunk.content)
          (context ++ [contextEntry name chunk])
        refine ⟨contextEntry name chunk :: t, ?_, ?_⟩
        · rw [assembleLoop_push h1 h2, ht]
          simp
        · simpa using hs.cons₂ (contextEntry name chunk)

/-- Evaluation of the loop on the budget-boundary scenario of the spec:
chunk sizes 20000, 15000, 100 against the 30000 budget.  The second chunk
overflows and is skipped; the third fits the remaining budget and is
admitted. -/
lemma assembleLoop_example :
    assembleLoop
        [((0 : ℚ), "a", ⟨"a", repA 20000⟩), ((0 : ℚ), "b", ⟨"b", repA 15000⟩),
          ((0 : ℚ), "c", ⟨"c", repA 100⟩)] 0 [] =
      (20100, [contextEntry "a" ⟨"a", repA 20000⟩,
        contextEntry "c" ⟨"c", repA 100⟩]) := by
  have e1 : rustLen (repA 20000) = 20000 := rustLen_repA _
  have e2 : rustLen (repA 15000) = 15000 := rustLen_repA _
  have e3 : rustLen (repA 100) = 100 := rustLen_repA _
  rw [assembleLoop_push not_gt_distance_zero (by rw [e1]; norm_num [MAX_CHAR_LEN])]
  simp only [e1, List.nil_append, Nat.zero_add]
  rw [assembleLoop_skip_len not_gt_distance_zero (by rw [e2]; norm_num [MAX_CHAR_LEN])]
  rw [assembleLoop_push not_gt_distance_zero (by rw [e3]; norm_num [MAX_CHAR_LEN])]
  rw [assembleLoop_nil, e3]
  norm_num

/-- Claim C1, counterexample: with candidate chunks of sizes 20000, 15000 and
100 and budget 30000, the assembly loop of `query_rag` admits the first AND
the third chunk — the third chunk is in the assembled context, so admission
does not stop at the first overflowing candidate as the claim states. -/
theorem C1_counterexample :
    assembleLoop
        [((0 : ℚ), "a", ⟨"a", repA 20000⟩), ((0 : ℚ), "b", ⟨"b", repA 15000⟩),
          ((0 : ℚ), "c", ⟨"c", repA 100⟩)] 0 [] =
      (20100, [contextEntry "a" ⟨"a", repA 20000⟩,
        contextEntry "c" ⟨"c", repA 100⟩]) ∧
    contextEntry "c" ⟨"c", repA 100⟩ ∈
      (assembleLoop
        [((0 : ℚ), "a", ⟨"a", repA 20000⟩), ((0 : ℚ), "b", ⟨"b", repA 15000⟩),
          ((0 : ℚ), "c", ⟨"c", repA 100⟩)] 0 []).2 := by
  refine ⟨assembleLoop_example, ?_⟩
  rw [assembleLoop_example]
  simp

/-- Claim C1, amended: chunks are admitted in ranked order (the assembled
context is an order-preserving sublist of the formatted candidates) and the
cumulative admitted length never exceeds the 30000-character budget, but a
candidate that would overflow the budget is skipped (`continue`) and later
smaller candidates may still be admitted: for sizes [20000, 15000, 100] and
budget 30000, the first and third chunks are admitted and the second is
not. -/
theorem C1_amended :
    (∀ results : List (ℚ × String × UniswapChunk),
        (assembleLoop results 0 []).1 ≤ MAX_CHAR_LEN ∧
        List.Sublist (assembleLoop results 0 []).2
          (results.map fun r => contextEntry r.2.1 r.2.2)) ∧
    assembleLoop
        [((0 : ℚ), "a", ⟨"a", repA 20000⟩), ((0 : ℚ), "b", ⟨"b", repA 15000⟩),
          ((0 : ℚ), "c", ⟨"c", repA 100⟩)] 0 [] =
      (20100, [contextEntry "a" ⟨"a", repA 20000⟩,
        contextEntry "c" ⟨"c", repA 100⟩]) := by
  refine ⟨fun results => ⟨?_, ?_⟩, assembleLoop_example⟩
  · exact assembleLoop_ctx_le results 0 [] (by norm_num [MAX_CHAR_LEN])
  · obtain ⟨t, ht, hs⟩ := assembleLoop_context_sublist results 0 []
    rw [ht]
    simpa using hs

/-- Claim C2, counterexample: a result whose score is exactly the threshold
`DISTANCE` (0.9) is INCLUDED in the assembled context, not excluded as the
claim states. -/
theorem C2_counterexample :
    (assembleLoop [(DISTANCE, "n", ⟨"n", "hello"⟩)] 0 []).2 =
      ["Source: n\nContent: hello"] := by
  have h : ¬ rustLen ("hello" : String) + 0 > MAX_CHAR_LEN := by
    have e : rustLen ("hello" : String) = 5 := rfl
    rw [e]
    norm_num [MAX_CHAR_LEN]
  rw [assembleLoop_push not_gt_distance_self h, assembleLoop_nil]
  rfl

/-- Claim C2, amended: the boundary convention of the threshold filter is the
opposite of the claim — a result scored exactly at the threshold (0.9) is
included, a result scored 0.899 is included, and only results scored strictly
above the threshold are excluded. -/
theorem C2_amended (name : String) (chunk : UniswapChunk) (ctx : ℕ)
    (context : List String) (rest : List (ℚ × String × UniswapChunk))
    (h : ¬ rustLen chunk.content + ctx > MAX_CHAR_LEN) :
    (assembleLoop ((DISTANCE, name, chunk) :: rest) ctx context =
      assembleLoop rest (ctx + rustLen chunk.content)
        (context ++ [contextEntry name chunk])) ∧
    (assembleLoop (((899 : ℚ) / 1000, name, chunk) :: rest) ctx context =
      assembleLoop rest (ctx + rustLen chunk.content)
        (context ++ [contextEntry name chunk])) ∧
    ∀ score : ℚ, score > DISTANCE →
      assembleLoop ((score, name, chunk) :: rest) ctx context =
        assembleLoop rest ctx context :=
  ⟨assembleLoop_push not_gt_distance_self h,
    assembleLoop_push not_gt_distance_899 h,
    fun _ hs => assembleLoop_skip_score hs⟩

/-- Claim C2, witness: the amended theorem applied to a single result of
score exactly 0.9 with content of 5 bytes. -/
theorem C2_witness :
    (¬ rustLen ("hello" : String) + 0 > MAX_CHAR_LEN) ∧
    assembleLoop [(DISTANCE, "n", ⟨"n", "hello"⟩)] 0 [] =
      assembleLoop [] (0 + rustLen ("hello" : String))
        ([] ++ [contextEntry "n" ⟨"n", "hello"⟩]) := by
  have h : ¬ rustLen ("hello" : String) + 0 > MAX_CHAR_LEN := by
    have e : rustLen ("hello" : String) = 5 := rfl
    rw [e]
    norm_num [MAX_CHAR_LEN]
  exact ⟨h, (C2_amended "n" ⟨"n", "hello"⟩ 0 [] [] h).1⟩

/-- Claim C3, counterexample: when the retrieval search fails, the REPL loop
body does NOT fall back to sending the unaugmented query — the error
propagates via `?` and `start_repl` aborts. -/
theorem C3_counterexample :
    replStep (⟨(), (), ([] : List Unit)⟩ : RigAgent Unit Unit Unit)
        (ReadResult.line "hello") (Except.error "boom") =
      (⟨(), (), []⟩, ReplOutcome.aborted "boom") ∧
    (replStep (⟨(), (), ([] : List Unit)⟩ : RigAgent Unit Unit Unit)
        (ReadResult.line "hello") (Except.error "boom")).2 ≠
      ReplOutcome.continued (some "hello") := by
  exact ⟨rfl, by decide⟩

/-- Claim C3, amended: on any non-quit input line, a retrieval failure makes
the loop iteration abort the whole REPL (`start_repl` returns the error);
no prompt is sent this turn.  Only completion errors are caught and displayed
at the turn boundary. -/
theorem C3_amended (A I M : Type) (st : RigAgent A I M) (l e : String)
    (hq : ¬ rustTrim l = "quit") :
    replStep st (ReadResult.line l) (Except.error e) =
      (st, ReplOutcome.aborted e) := by
  simp [replStep, hq, query_rag_run]

/-- Claim C3, witness: the amended theorem applied to the line `hello` and
search error `boom`. -/
theorem C3_witness :
    (¬ rustTrim "hello" = "quit") ∧
    replStep (⟨(), (), ([] : List Unit)⟩ : RigAgent Unit Unit Unit)
        (ReadResult.line "hello") (Except.error "boom") =
      (⟨(), (), []⟩, ReplOutcome.aborted "boom") :=
  ⟨by decide, C3_amended Unit Unit Unit ⟨(), (), []⟩ "hello" "boom" (by decide)⟩

/-- Claim C4, counterexample: a single unreadable `.md` file makes the whole
ingest return its error; the readable file after it contributes nothing. -/
theorem C4_counterexample :
    ingest_docs (fun s => [s]) (fun s => [s])
        [⟨"bad.md", Except.error "denied"⟩, ⟨"good.md", Except.ok "x"⟩] [] =
      Except.error "denied" := rfl

/-- Claim C4, amended: a read failure on a `.md` or `.sol` file aborts the
entire `ingest_docs` call with that error (propagated by `?`); the remaining
files are not ingested. -/
theorem C4_amended (mdC solC : String → List String) (fname err : String)
    (rest : List FileEntry) (docs : List UniswapChunk)
    (h : pathExtension fname = some MD_EXTENSION ∨
      pathExtension fname = some SOL_EXTENSION) :
    ingest_docs mdC solC ({ file_name := fname, read := Except.error err } :: rest)
        docs = Except.error err := by
  have hfile : ingestFile mdC solC docs
      { file_name := fname, read := Except.error err } = Except.error err := by
    rcases h with h | h
    · simp [ingestFile, h, MD_EXTENSION, SOL_EXTENSION]
    · simp [ingestFile, h, MD_EXTENSION, SOL_EXTENSION]
  conv_lhs => unfold ingest_docs
  rw [hfile]

/-- Claim C4, witness: the amended theorem applied to an unreadable
`bad.md` followed by a readable `good.md`. -/
theorem C4_witness :
    (pathExtension "bad.md" = some MD_EXTENSION ∨
      pathExtension "bad.md" = some SOL_EXTENSION) ∧
    ingest_docs (fun s => [s]) (fun s => [s])
        [⟨"bad.md", Except.error "denied"⟩, ⟨"good.md", Except.ok "x"⟩] [] =
      Except.error "denied" :=
  ⟨Or.inl rfl, C4_amended (fun s => [s]) (fun s => [s]) "bad.md" "denied"
    [⟨"good.md", Except.ok "x"⟩] [] (Or.inl rfl)⟩

/-- Claim C5, confirmed: when the vector search succeeds with an empty result
set, `query_rag` returns exactly the original query unchanged, with no error
and no state change. -/
theorem C5_empty_passthrough (A I M : Type) (st : RigAgent A I M) (q : String) :
    query_rag_run st q (Except.ok []) = Except.ok (st, q) := by
  simp [query_rag_run, query_rag]

/-- Claim C6, confirmed: whenever the search result set is non-empty,
`query_rag` clears the entire conversation history before assembling the
context, and the history is the only agent state it mutates — the agent and
the index fields are unchanged. -/
theorem C6_clears_history_only (A I M : Type) (st : RigAgent A I M)
    (q : String) (rs : List (ℚ × String × UniswapChunk)) (h : rs ≠ []) :
    (query_rag st q rs).1.history = [] ∧
    (query_rag st q rs).1.agent = st.agent ∧
    (query_rag st q rs).1.index = st.index := by
  cases rs with
  | nil => exact absurd rfl h
  | cons hd tl => simp [query_rag]

/-- Claim C6, witness: the theorem applied to an agent with a non-empty
history and a single search result. -/
theorem C6_witness :
    ([((0 : ℚ), "n", (⟨"n", "x"⟩ : UniswapChunk))] ≠ []) ∧
    ((query_rag (⟨(), (), [()]⟩ : RigAgent Unit Unit Unit) "q"
        [((0 : ℚ), "n", ⟨"n", "x"⟩)]).1.history = [] ∧
      (query_rag (⟨(), (), [()]⟩ : RigAgent Unit Unit Unit) "q"
        [((0 : ℚ), "n", ⟨"n", "x"⟩)]).1.agent =
          (⟨(), (), [()]⟩ : RigAgent Unit Unit Unit).agent ∧
      (query_rag (⟨(), (), [()]⟩ : RigAgent Unit Unit Unit) "q"
        [((0 : ℚ), "n", ⟨"n", "x"⟩)]).1.index =
          (⟨(), (), [()]⟩ : RigAgent Unit Unit Unit).index) :=
  ⟨by simp, C6_clears_history_only Unit Unit Unit ⟨(), (), [()]⟩ "q"
    [((0 : ℚ), "n", ⟨"n", "x"⟩)] (by simp)⟩

/-- Claim C7, counterexample: a read error (end of input) does NOT terminate
the REPL loop — the loop prints the error and proceeds to the next iteration,
so the claimed `AwaitingInput → Terminated` transition on end-of-input does
not exist in the code. -/
theorem C7_counterexample :
    (replStep (⟨(), (), ([] : List Unit)⟩ : RigAgent Unit Unit Unit)
        (ReadResult.err "end of input") (Except.ok [])).2 =
      ReplOutcome.continued none ∧
    (replStep (⟨(), (), ([] : List Unit)⟩ : RigAgent Unit Unit Unit)
        (ReadResult.err "end of input") (Except.ok [])).2 ≠
      ReplOutcome.terminated := by
  exact ⟨rfl, by decide⟩

/-- Claim C7, amended: the loop exits (`break`) in exactly one case — the
input line trims to the explicit quit command; a line-read failure
(end-of-input signal included) is printed and the loop proceeds to the next
iteration. -/
theorem C7_amended (A I M : Type) (st : RigAgent A I M) (input : ReadResult)
    (search : Except String (List (ℚ × String × UniswapChunk))) :
    ((replStep st input search).2 = ReplOutcome.terminated ↔
      ∃ l, input = ReadResult.line l ∧ rustTrim l = "quit") ∧
    ∀ e, input = ReadResult.err e →
      (replStep st input search).2 = ReplOutcome.continued none := by
  constructor
  · constructor
    · intro h
      cases input with
      | err e => simp [replStep] at h
      | line l =>
        by_cases hq : rustTrim l = "quit"
        · exact ⟨l, rfl, hq⟩
        · exfalso
          cases search with
          | error e => simp [replStep, hq, query_rag_run] at h
          | ok rs => simp [replStep, hq, query_rag_run] at h
    · rintro ⟨l, rfl, hq⟩
      simp [replStep, hq]
  · rintro e rfl
    simp [replStep]

/-- Claim C7, witness: the amended theorem applied to the quit command. -/
theorem C7_witness :
    (replStep (⟨(), (), ([] : List Unit)⟩ : RigAgent Unit Unit Unit)
        (ReadResult.line "quit") (Except.ok [])).2 = ReplOutcome.terminated :=
  (C7_amended Unit Unit Unit ⟨(), (), []⟩ (ReadResult.line "quit")
      (Except.ok [])).1.mpr ⟨"quit", rfl, rfl⟩

/-- Claim C8, confirmed: a `.md` file is chunked only by the markdown
splitter (its result does not depend on the source-code splitter), a `.sol`
file only by the source-code splitter (its result does not depend on the
markdown splitter), and a file with any other extension — or none —
contributes zero chunks and raises no error. -/
theorem C8_extension_routing (mdC mdC' solC solC' : String → List String)
    (docs : List UniswapChunk) (f : FileEntry) :
    (pathExtension f.file_name = some MD_EXTENSION →
      (∀ s, f.read = Except.ok s →
        ingestFile mdC solC docs f =
          Except.ok (docs ++ (mdC s).map (chunkOf (debugFormat f.file_name)))) ∧
      ingestFile mdC solC docs f = ingestFile mdC solC' docs f) ∧
    (pathExtension f.file_name = some SOL_EXTENSION →
      (∀ s, f.read = Except.ok s →
        ingestFile mdC solC docs f =
          Except.ok (docs ++ (solC s).map (chunkOf (debugFormat f.file_name)))) ∧
      ingestFile mdC solC docs f = ingestFile mdC' solC docs f) ∧
    (∀ e, pathExtension f.file_name = some e → e ≠ MD_EXTENSION →
      e ≠ SOL_EXTENSION → ingestFile mdC solC docs f = Except.ok docs) ∧
    (pathExtension f.file_name = none → ingestFile mdC solC docs f = Except.ok docs) := by
  refine ⟨fun h => ⟨fun s hs => ?_, ?_⟩, fun h => ⟨fun s hs => ?_, ?_⟩,
    fun e h hmd hsol => ?_, fun h => ?_⟩
  · simp [ingestFile, h, hs]
  · rcases hr : f.read with e | s
    · simp [ingestFile, h, hr]
    · simp [ingestFile, h, hr]
  · simp [ingestFile, h, hs, MD_EXTENSION, SOL_EXTENSION]
  · rcases hr : f.read with e | s
    · simp [ingestFile, h, hr, MD_EXTENSION, SOL_EXTENSION]
    · simp [ingestFile, h, hr, MD_EXTENSION, SOL_EXTENSION]
  · simp [ingestFile, h, hmd, hsol]
  · simp [ingestFile, h]

/-- Claim C8, witness: the routing theorem applied to a readable `.md` file,
with a source-code splitter that would produce no chunks. -/
theorem C8_witness :
    pathExtension "a.md" = some MD_EXTENSION ∧
    ingestFile (fun s => [s]) (fun _ => []) [] ⟨"a.md", Except.ok "body"⟩ =
      Except.ok ([] ++ [("body" : String)].map (chunkOf (debugFormat "a.md"))) :=
  ⟨rfl, ((C8_extension_routing (fun s => [s]) (fun s => [s]) (fun _ => [])
      (fun _ => []) [] ⟨"a.md", Except.ok "body"⟩).1 rfl).1 "body" rfl⟩

/-- Claim C9, counterexample: the recorded source name of an ingested chunk is
the `Debug`-formatted base name — `"foo.md"` with literal quote characters —
which is not the file's base name itself but carries formatting artifacts. -/
theorem C9_counterexample :
    ingestFile (fun s => [s]) (fun s => [s]) [] ⟨"foo.md", Except.ok "hello"⟩ =
      Except.ok [{ file_name := "\"foo.md\"", content := "hello" }] ∧
    ("\"foo.md\"" : String) ≠ "foo.md" :=
  ⟨rfl, by decide⟩

/-- Claim C9, amended: every chunk produced by ingesting a file records as its
source name the `Debug` formatting of the originating file's base name (the
base name wrapped in quote characters, with escapes) — stable across runs,
but not the bare file name. -/
theorem C9_amended (mdC solC : String → List String) (docs : List UniswapChunk)
    (f : FileEntry) (out : List UniswapChunk)
    (hok : ingestFile mdC solC docs f = Except.ok out) :
    ∀ c ∈ out, c ∈ docs ∨ c.file_name = debugFormat f.file_name := by
  intro c hc
  rcases hext : pathExtension f.file_name with _ | e
  · simp [ingestFile, hext] at hok
    subst hok
    exact Or.inl hc
  · by_cases hmd : e = MD_EXTENSION
    · subst hmd
      rcases hr : f.read with err | s
      · simp [ingestFile, hext, hr] at hok
      · simp [ingestFile, hext, hr] at hok
        subst hok
        rcases List.mem_append.mp hc with h | h
        · exact Or.inl h
        · obtain ⟨x, _, rfl⟩ := List.mem_map.mp h
          exact Or.inr rfl
    · by_cases hsol : e = SOL_EXTENSION
      · subst hsol
        rcases hr : f.read with err | s
        · simp [ingestFile, hext, hr, MD_EXTENSION, SOL_EXTENSION] at hok
        · simp [ingestFile, hext, hr, MD_EXTENSION, SOL_EXTENSION] at hok
          subst hok
          rcases List.mem_append.mp hc with h | h
          · exact Or.inl h
          · obtain ⟨x, _, rfl⟩ := List.mem_map.mp h
            exact Or.inr rfl
      · simp [ingestFile, hext, hmd, hsol] at hok
        subst hok
        exact Or.inl hc

/-- Claim C9, witness: the amended theorem applied to a chunk produced from
`foo.md` — its recorded name is the quoted form of the base name. -/
theorem C9_witness :
    ingestFile (fun s => [s]) (fun s => [s]) [] ⟨"foo.md", Except.ok "hello"⟩ =
      Except.ok [chunkOf (debugFormat "foo.md") "hello"] ∧
    (chunkOf (debugFormat "foo.md") "hello" ∈ ([] : List UniswapChunk) ∨
      (chunkOf (debugFormat "foo.md") "hello").file_name = debugFormat "foo.md") := by
  have hok : ingestFile (fun s => [s]) (fun s => [s]) []
      ⟨"foo.md", Except.ok "hello"⟩ =
      Except.ok [chunkOf (debugFormat "foo.md") "hello"] := rfl
  exact ⟨hok, C9_amended (fun s => [s]) (fun s => [s]) []
    ⟨"foo.md", Except.ok "hello"⟩ _ hok (chunkOf (debugFormat "foo.md") "hello")
    (by simp)⟩

/-- Claim C10, confirmed: when the search returns at least one result but the
assembly loop admits none of them, `query_rag` does not return the bare
query — it clears the history and returns the preamble/query wrapper around
an empty context block, and that wrapper differs from the query. -/
theorem C10_filtered_not_passthrough (A I M : Type) (st : RigAgent A I M)
    (q : String) (rs : List (ℚ × String × UniswapChunk)) (h : rs ≠ [])
    (hfilter : (assembleLoop rs 0 []).2 = []) :
    (query_rag st q rs).2 =
      "You have access to the following relevant documentation: \n\n\n\n --- \n\nUser: " ++ q ∧
    (query_rag st q rs).1.history = [] ∧
    (query_rag st q rs).2 ≠ q := by
  cases rs with
  | nil => exact absurd rfl h
  | cons hd tl =>
    have hwrap : (query_rag st q (hd :: tl)).2 =
        "You have access to the following relevant documentation: \n\n" ++
          String.intercalate SEPARATOR (assembleLoop (hd :: tl) 0 []).2 ++
          "\n\n --- \n\nUser: " ++ q := by
      simp [query_rag]
    rw [hfilter] at hwrap
    have hempty : String.intercalate SEPARATOR [] = "" := rfl
    rw [hempty] at hwrap
    have hP : 0 <
        ("You have access to the following relevant documentation: \n\n\n\n --- \n\nUser: " : String).length := by
      decide
    refine ⟨?_, by simp [query_rag], ?_⟩
    · rw [hwrap]
      rfl
    · intro heq
      rw [hwrap] at heq
      have hlen := congrArg String.length heq
      rw [show ("You have access to the following relevant documentation: \n\n" ++
          "" ++ "\n\n --- \n\nUser: " ++ q : String) =
        ("You have access to the following relevant documentation: \n\n\n\n --- \n\nUser: " : String) ++ q
        from rfl] at hlen
      rw [String.length_append] at hlen
      omega

/-- Claim C10, witness: a single result whose score 1.0 exceeds the threshold
is filtered out, yet the returned string is the wrapper, not the query. -/
theorem C10_witness :
    ([((1 : ℚ), "n", (⟨"n", "x"⟩ : UniswapChunk))] ≠ []) ∧
    (assembleLoop [((1 : ℚ), "n", ⟨"n", "x"⟩)] 0 []).2 = [] ∧
    (query_rag (⟨(), (), [()]⟩ : RigAgent Unit Unit Unit) "q"
        [((1 : ℚ), "n", ⟨"n", "x"⟩)]).2 =
      "You have access to the following relevant documentation: \n\n\n\n --- \n\nUser: " ++ "q" := by
  have hf : (assembleLoop [((1 : ℚ), "n", (⟨"n", "x"⟩ : UniswapChunk))] 0 []).2 = [] := by
    rw [assembleLoop_skip_score one_gt_distance, assembleLoop_nil]
  exact ⟨by simp, hf,
    (C10_filtered_not_passthrough Unit Unit Unit ⟨(), (), [()]⟩ "q"
      [((1 : ℚ), "n", ⟨"n", "x"⟩)] (by simp) hf).1⟩

end RigRepl
